import Mathlib

/-!
Shallow embedding of the threaded short-range pair styles
`PairCoulDebyeOMP` (src/USER-OPENMP/pair_coul_debye_omp.cpp) and
`PairCoulDielOMP` (src/USER-OPENMP/pair_coul_diel_omp.cpp).

Machine doubles are modelled as exact reals; `fwrite`/`fread` of the binary
restart block are modelled as emitting/consuming a list of typed words.
The per-thread decomposition (`loop_setup_thr` / `force_reduce_thr`) is not
part of the sources; the evaluation loop is embedded as a single fold over
the neighbor list, which is the mathematical content of the per-pair
algorithm.  Flags that the C++ code stores as `int` and tests for truth are
modelled as `ℤ` tested against `0`.
-/

/-- Three-component coordinate/force vector (one row of the `x`/`f` arrays). -/
structure Vec3 where
  x : ℝ
  y : ℝ
  z : ℝ

/-- Particle snapshot supplied by the surrounding engine (`atom` fields read
by the kernels): owned count, ghost count, positions, charges, type ids. -/
structure Atoms where
  nlocal : ℕ
  nghost : ℕ
  x : ℕ → Vec3
  q : ℕ → ℝ
  type : ℕ → ℕ

/-- Accumulator state written by one evaluation call: the force array and the
accumulated coulomb energy scalar. -/
structure EvalAcc where
  f : ℕ → Vec3
  eng_coul : ℝ

/-- Pointwise update of a two-index table at one slot, the meaning of a
single `t[a][b] = v` assignment on a 2d array. -/
def upd2 (t : ℕ → ℕ → ℝ) (a b : ℕ) (v : ℝ) : ℕ → ℕ → ℝ :=
  fun p r => if p = a ∧ r = b then v else t p r

/-- Meaning of the three statements `f[k][0] += dx; f[k][1] += dy;
f[k][2] += dz` on the force array. -/
def addF (f : ℕ → Vec3) (k : ℕ) (dx dy dz : ℝ) : ℕ → Vec3 :=
  fun m => if m = k then ⟨(f k).x + dx, (f k).y + dy, (f k).z + dz⟩ else f m

/-- Component `xtmp - x[j][0]` of the separation vector. -/
def delxOf (A : Atoms) (i j : ℕ) : ℝ := (A.x i).x - (A.x j).x

/-- Component `ytmp - x[j][1]` of the separation vector. -/
def delyOf (A : Atoms) (i j : ℕ) : ℝ := (A.x i).y - (A.x j).y

/-- Component `ztmp - x[j][2]` of the separation vector. -/
def delzOf (A : Atoms) (i j : ℕ) : ℝ := (A.x i).z - (A.x j).z

/-- Squared separation `rsq = delx*delx + dely*dely + delz*delz`. -/
def rsqOf (A : Atoms) (i j : ℕ) : ℝ :=
  delxOf A i j * delxOf A i j + delyOf A i j * delyOf A i j +
    delzOf A i j * delzOf A i j

/-- One word of the binary restart stream: `fwrite`/`fread` of one `double`
or one `int`. -/
inductive RWord where
  | d : ℝ → RWord
  | i : ℤ → RWord

namespace PairCoulDebyeOMP

/-- Style state of `PairCoulDebyeOMP`: the globals read by `settings`,
`write_restart_settings`/`read_restart_settings` and the kernels
(`kappa`, `cut_global`, the flags, and the per-type-pair tables inherited
from the coul/cut family), together with the engine globals the kernel
reads (`force->qqrd2e`, `force->special_coul`). -/
structure Data where
  qqrd2e : ℝ
  special_coul : ℕ → ℝ
  kappa : ℝ
  cut_global : ℝ
  offset_flag : ℤ
  mix_flag : ℤ
  setflag : ℕ → ℕ → ℤ
  cut : ℕ → ℕ → ℝ
  cutsq : ℕ → ℕ → ℝ

/-- Force prefactor of one in-cutoff pair, lines 122-127 of
pair_coul_debye_omp.cpp: `r2inv`, `r`, `rinv`, `screening`, `forcecoul`,
and `fpair = factor_coul*forcecoul*r2inv`. -/
noncomputable def fpairOf (qqrd2e kappa qtmp qj factor_coul rsq : ℝ) : ℝ :=
  let r2inv := 1 / rsq
  let r := Real.sqrt rsq
  let rinv := 1 / r
  let screening := Real.exp (-kappa * r)
  let forcecoul := qqrd2e * qtmp * qj * screening * (kappa + rinv)
  factor_coul * forcecoul * r2inv

/-- Pair energy of one in-cutoff pair, line 139 of pair_coul_debye_omp.cpp:
`ecoul = factor_coul * qqrd2e * qtmp*q[j] * rinv * screening`. -/
noncomputable def ecoulOf (qqrd2e kappa qtmp qj factor_coul rsq : ℝ) : ℝ :=
  let r := Real.sqrt rsq
  let rinv := 1 / r
  let screening := Real.exp (-kappa * r)
  factor_coul * qqrd2e * qtmp * qj * rinv * screening

/-- Guarded per-pair computation of the eval loop, lines 121-139 of
pair_coul_debye_omp.cpp: inside `if (rsq < cutsq[itype][jtype])` the pair
produces `(fpair, ecoul)`; otherwise nothing is computed or accumulated. -/
noncomputable def pairContribution (qqrd2e kappa qtmp qj factor_coul rsq cutsq_ij : ℝ) :
    Option (ℝ × ℝ) :=
  if rsq < cutsq_ij then
    some (fpairOf qqrd2e kappa qtmp qj factor_coul rsq,
          ecoulOf qqrd2e kappa qtmp qj factor_coul rsq)
  else none

/-- Single-pair diagnostic query, lines 207-223 of pair_coul_debye_omp.cpp:
returns the pair `(factor_coul*phicoul, fforce)` of the energy returned by
`single` and the force magnitude written through `fforce`. -/
noncomputable def single (qqrd2e kappa qi qj rsq factor_coul : ℝ) : ℝ × ℝ :=
  let r2inv := 1 / rsq
  let r := Real.sqrt rsq
  let rinv := 1 / r
  let screening := Real.exp (-kappa * r)
  let forcecoul := qqrd2e * qi * qj * screening * (kappa + rinv)
  let fforce := factor_coul * forcecoul * r2inv
  let phicoul := qqrd2e * qi * qj * rinv * screening
  (factor_coul * phicoul, fforce)

/-- Body of the inner neighbor loop, lines 106-143 of
pair_coul_debye_omp.cpp: decode the packed neighbor index `jj` into the
exclusion factor and the true partner index, compute the separation, and if
the pair is inside the cutoff add the force to `f[i]`, add the negated force
to `f[j]` when `NEWTON_PAIR || j < nlocal`, and tally the energy.  The
energy tally `ev_tally_thr` is not part of the sources; modelled from the
spec (section 4.2 step 6): add the scaled pair energy to the thread-local
scalar accumulator when accounting is enabled. -/
noncomputable def evalStep (EVFLAG EFLAG NEWTON_PAIR : Bool) (P : Data) (A : Atoms)
    (i : ℕ) (acc : EvalAcc) (jj : ℕ) : EvalAcc :=
  let nall := A.nlocal + A.nghost
  let factor_coul : ℝ := if jj < nall then 1 else P.special_coul (jj / nall)
  let j := if jj < nall then jj else jj % nall
  match pairContribution P.qqrd2e P.kappa (A.q i) (A.q j) factor_coul (rsqOf A i j)
      (P.cutsq (A.type i) (A.type j)) with
  | none => acc
  | some fe =>
      let fpair := fe.1
      let f1 := addF acc.f i (delxOf A i j * fpair) (delyOf A i j * fpair)
        (delzOf A i j * fpair)
      let f2 := if NEWTON_PAIR = true ∨ j < A.nlocal then
          addF f1 j (-(delxOf A i j * fpair)) (-(delyOf A i j * fpair))
            (-(delzOf A i j * fpair))
        else f1
      let ecoul := if EFLAG = true then fe.2 else 0
      { f := f2,
        eng_coul := if EVFLAG = true then acc.eng_coul + ecoul else acc.eng_coul }

/-- Neighbor loop of one owned particle: fold of `evalStep` over the raw
neighbor indices of owner `e.1`. -/
noncomputable def evalAtom (EVFLAG EFLAG NEWTON_PAIR : Bool) (P : Data) (A : Atoms)
    (acc : EvalAcc) (e : ℕ × List ℕ) : EvalAcc :=
  e.2.foldl (evalStep EVFLAG EFLAG NEWTON_PAIR P A e.1) acc

/-- The eval loop, lines 59-152 of pair_coul_debye_omp.cpp: iterate the
neighbor lists of all owned particles (the `ilist`/`firstneigh` structure is
embedded as a list of owner-partners entries). -/
noncomputable def eval (EVFLAG EFLAG NEWTON_PAIR : Bool) (P : Data) (A : Atoms)
    (nlist : List (ℕ × List ℕ)) (acc : EvalAcc) : EvalAcc :=
  nlist.foldl (evalAtom EVFLAG EFLAG NEWTON_PAIR P A) acc

/-- The variant dispatch of `compute`, lines 38-57 of
pair_coul_debye_omp.cpp: `evflag` is set when `eflag || vflag` and the
specialized `eval<EVFLAG,EFLAG,NEWTON_PAIR>` instantiation is selected. -/
noncomputable def compute (eflag vflag newton_pair : Bool) (P : Data) (A : Atoms)
    (nlist : List (ℕ × List ℕ)) (acc : EvalAcc) : EvalAcc :=
  if eflag || vflag then
    (if eflag then eval true true newton_pair P A nlist acc
     else eval true false newton_pair P A nlist acc)
  else eval false false newton_pair P A nlist acc

/-- Loop of `settings` resetting explicitly set off-diagonal cutoffs, lines
167-172 of pair_coul_debye_omp.cpp (the same loop appears at lines 210-215
of pair_coul_diel_omp.cpp): for `i` from 1 to `ntypes` and `j` from `i+1`
to `ntypes`, `if (setflag[i][j]) cut[i][j] = cut_global`. -/
noncomputable def resetCuts (ntypes : ℕ) (setflag : ℕ → ℕ → ℤ) (cut_global : ℝ)
    (cut : ℕ → ℕ → ℝ) : ℕ → ℕ → ℝ :=
  (List.range' 1 ntypes).foldl
    (fun c i =>
      (List.range' (i + 1) (ntypes - i)).foldl
        (fun c2 j => if setflag i j ≠ 0 then upd2 c2 i j cut_global else c2) c)
    cut

/-- Global settings command, lines 158-173 of pair_coul_debye_omp.cpp:
two arguments set `kappa` and `cut_global`; if already allocated, the
explicitly set off-diagonal cutoffs are reset to the new global cutoff. -/
noncomputable def settings (narg : ℕ) (arg0 arg1 : ℝ) (allocated : Bool)
    (ntypes : ℕ) (setflag : ℕ → ℕ → ℤ) (cut : ℕ → ℕ → ℝ) :
    Except String (ℝ × ℝ × (ℕ → ℕ → ℝ)) :=
  if narg ≠ 2 then .error ("Illegal pair_style command")
  else .ok (arg0, arg1,
    if allocated then resetCuts ntypes setflag arg1 cut else cut)

/-- Restart settings block writer, lines 179-185 of
pair_coul_debye_omp.cpp: `fwrite` of `cut_global`, `kappa`, `offset_flag`,
`mix_flag`. -/
def write_restart_settings (P : Data) : List RWord :=
  [.d P.cut_global, .d P.kappa, .i P.offset_flag, .i P.mix_flag]

/-- Restart settings block reader, lines 191-203 of
pair_coul_debye_omp.cpp: `fread` of `cut_global`, `kappa`, `offset_flag`,
`mix_flag` in that order (the MPI broadcast is a no-op in this single
process model). -/
def read_restart_settings (P : Data) (w : List RWord) :
    Option (Data × List RWord) :=
  match w with
  | .d cg :: .d ka :: .i ofl :: .i mfl :: rest =>
      some ({ P with cut_global := cg, kappa := ka,
                     offset_flag := ofl, mix_flag := mfl }, rest)
  | _ => none

/-- Modelled from the spec: `PairCoulDebyeOMP` inherits its per-type-pair
initialization from the coul/cut family, whose source is not part of this
repository.  Per the spec (section 8), for an unset type pair the Debye
style must "silently apply the global cutoff" as the default, without
erroring; an explicitly set pair keeps its stored cutoff. -/
def init_one_spec (cut_global : ℝ) (setflag : ℕ → ℕ → ℤ) (cut : ℕ → ℕ → ℝ)
    (i j : ℕ) : Except String ℝ :=
  if setflag i j = 0 then .ok cut_global else .ok (cut i j)

end PairCoulDebyeOMP

namespace PairCoulDielOMP

/-- Style state of `PairCoulDielOMP`: the globals set by `settings` and
`coeff` (`cut_global`, `eps_s`, `a_eps`, `b_eps`, flags) and the per-type-pair
tables allocated by `allocate`, together with the engine globals the kernel
reads (`force->qqrd2e`, `force->special_coul`). -/
structure Data where
  qqrd2e : ℝ
  special_coul : ℕ → ℝ
  eps_s : ℝ
  a_eps : ℝ
  b_eps : ℝ
  cut_global : ℝ
  offset_flag : ℤ
  mix_flag : ℤ
  setflag : ℕ → ℕ → ℤ
  sigmae : ℕ → ℕ → ℝ
  rme : ℕ → ℕ → ℝ
  offset : ℕ → ℕ → ℝ
  cut : ℕ → ℕ → ℝ
  cutsq : ℕ → ℕ → ℝ

/-- Force prefactor of one in-cutoff pair, lines 139-146 of
pair_coul_diel_omp.cpp: `r`, `rarg`, `th`, `epsr`, `depsdr`, `forcecoul`,
and `fpair = factor_coul*forcecoul/r`. -/
noncomputable def fpairOf (qqrd2e eps_s a_eps b_eps rme_ij sigmae_ij qtmp qj factor_coul rsq : ℝ) : ℝ :=
  let r := Real.sqrt rsq
  let rarg := (r - rme_ij) / sigmae_ij
  let th := Real.tanh rarg
  let epsr := a_eps + b_eps * th
  let depsdr := b_eps * (1 - th * th) / sigmae_ij
  let forcecoul := qqrd2e * qtmp * qj * ((eps_s * (epsr + r * depsdr) / epsr / epsr) - 1) / rsq
  factor_coul * forcecoul / r

/-- Pair energy of one in-cutoff pair, lines 157-160 of
pair_coul_diel_omp.cpp: `ecoul = (qqrd2e*qtmp*q[j]*((eps_s/epsr) - 1)/r) -
offset[itype][jtype]` followed by `ecoul *= factor_coul`. -/
noncomputable def ecoulOf (qqrd2e eps_s a_eps b_eps rme_ij sigmae_ij offset_ij qtmp qj factor_coul rsq : ℝ) : ℝ :=
  let r := Real.sqrt rsq
  let rarg := (r - rme_ij) / sigmae_ij
  let th := Real.tanh rarg
  let epsr := a_eps + b_eps * th
  ((qqrd2e * qtmp * qj * ((eps_s / epsr) - 1) / r) - offset_ij) * factor_coul

/-- Guarded per-pair computation of the eval loop, lines 138-160 of
pair_coul_diel_omp.cpp: inside `if (rsq < cutsq[itype][jtype])` the pair
produces `(fpair, ecoul)`; otherwise nothing is computed or accumulated. -/
noncomputable def pairContribution (qqrd2e eps_s a_eps b_eps rme_ij sigmae_ij offset_ij qtmp qj factor_coul rsq cutsq_ij : ℝ) :
    Option (ℝ × ℝ) :=
  if rsq < cutsq_ij then
    some (fpairOf qqrd2e eps_s a_eps b_eps rme_ij sigmae_ij qtmp qj factor_coul rsq,
          ecoulOf qqrd2e eps_s a_eps b_eps rme_ij sigmae_ij offset_ij qtmp qj factor_coul rsq)
  else none

/-- Single-pair diagnostic query, lines 370-390 of pair_coul_diel_omp.cpp:
returns the pair `(factor_coul*phidielec, fforce)` of the energy returned by
`single` and the force magnitude written through `fforce`. -/
noncomputable def single (qqrd2e eps_s a_eps b_eps rme_ij sigmae_ij offset_ij qi qj rsq factor_coul : ℝ) : ℝ × ℝ :=
  let r := Real.sqrt rsq
  let rarg := (r - rme_ij) / sigmae_ij
  let th := Real.tanh rarg
  let epsr := a_eps + b_eps * th
  let depsdr := b_eps * (1 - th * th) / sigmae_ij
  let forcedielec := qqrd2e * qi * qj * ((eps_s * (epsr + r * depsdr) / epsr / epsr) - 1) / rsq
  let fforce := factor_coul * forcedielec / r
  let phidielec := (qqrd2e * qi * qj * ((eps_s / epsr) - 1) / r) - offset_ij
  (factor_coul * phidielec, fforce)

/-- Body of the inner neighbor loop, lines 124-166 of
pair_coul_diel_omp.cpp.  The loop body reads the style tables and writes
only the force and energy accumulators, so the style state is passed
through unchanged in the first component.  The energy tally `ev_tally_thr`
is not part of the sources; modelled from the spec (section 4.2 step 6):
add the scaled pair energy to the thread-local scalar accumulator when
accounting is enabled.  Unlike the Debye eval loop, this source file
declares `jtype` (line 85) but never assigns it: there is no
`jtype = type[j]` statement, yet `cutsq`, `rme`, `sigmae` and `offset`
are indexed by `jtype` (lines 138, 140, 143, 158).  The indeterminate
contents of that uninitialized variable are modelled by the explicit
`jtype` parameter, one fixed but arbitrary value for the whole loop
execution. -/
noncomputable def evalStep (EVFLAG EFLAG NEWTON_PAIR : Bool) (jtype : ℕ) (A : Atoms)
    (i : ℕ) (w : Data × EvalAcc) (jj : ℕ) : Data × EvalAcc :=
  let P := w.1
  let acc := w.2
  let nall := A.nlocal + A.nghost
  let factor_coul : ℝ := if jj < nall then 1 else P.special_coul (jj / nall)
  let j := if jj < nall then jj else jj % nall
  let it := A.type i
  match pairContribution P.qqrd2e P.eps_s P.a_eps P.b_eps (P.rme it jtype)
      (P.sigmae it jtype) (P.offset it jtype) (A.q i) (A.q j) factor_coul
      (rsqOf A i j) (P.cutsq it jtype) with
  | none => (P, acc)
  | some fe =>
      let fpair := fe.1
      let f1 := addF acc.f i (delxOf A i j * fpair) (delyOf A i j * fpair)
        (delzOf A i j * fpair)
      let f2 := if NEWTON_PAIR = true ∨ j < A.nlocal then
          addF f1 j (-(delxOf A i j * fpair)) (-(delyOf A i j * fpair))
            (-(delzOf A i j * fpair))
        else f1
      let ecoul := if EFLAG = true then fe.2 else 0
      (P, { f := f2,
            eng_coul := if EVFLAG = true then acc.eng_coul + ecoul else acc.eng_coul })

/-- Neighbor loop of one owned particle: fold of `evalStep` over the raw
neighbor indices of owner `e.1`, under one fixed indeterminate `jtype`. -/
noncomputable def evalAtom (EVFLAG EFLAG NEWTON_PAIR : Bool) (jtype : ℕ) (A : Atoms)
    (w : Data × EvalAcc) (e : ℕ × List ℕ) : Data × EvalAcc :=
  e.2.foldl (evalStep EVFLAG EFLAG NEWTON_PAIR jtype A e.1) w

/-- The eval loop, lines 76-175 of pair_coul_diel_omp.cpp; `jtype` is the
indeterminate value held by the uninitialized variable of that name for
the duration of this loop execution. -/
noncomputable def eval (EVFLAG EFLAG NEWTON_PAIR : Bool) (jtype : ℕ) (A : Atoms)
    (nlist : List (ℕ × List ℕ)) (w : Data × EvalAcc) : Data × EvalAcc :=
  nlist.foldl (evalAtom EVFLAG EFLAG NEWTON_PAIR jtype A) w

/-- The variant dispatch of `compute`, lines 55-74 of
pair_coul_diel_omp.cpp.  Each specialized `eval` instantiation has its own
stack frame, so the indeterminate `jtype` value belongs to the selected
instantiation and is supplied per `compute` call. -/
noncomputable def compute (eflag vflag newton_pair : Bool) (jtype : ℕ) (A : Atoms)
    (nlist : List (ℕ × List ℕ)) (w : Data × EvalAcc) : Data × EvalAcc :=
  if eflag || vflag then
    (if eflag then eval true true newton_pair jtype A nlist w
     else eval true false newton_pair jtype A nlist w)
  else eval false false newton_pair jtype A nlist w

/-- Global settings command, lines 202-216 of pair_coul_diel_omp.cpp: one
argument sets `cut_global`; if already allocated, the explicitly set
off-diagonal cutoffs are reset to the new global cutoff (the reset loop is
identical to the Debye one and is shared as `PairCoulDebyeOMP.resetCuts`). -/
noncomputable def settings (narg : ℕ) (arg0 : ℝ) (allocated : Bool)
    (ntypes : ℕ) (setflag : ℕ → ℕ → ℤ) (cut : ℕ → ℕ → ℝ) :
    Except String (ℝ × (ℕ → ℕ → ℝ)) :=
  if narg ≠ 1 then .error ("Illegal pair_style command")
  else .ok (arg0,
    if allocated then PairCoulDebyeOMP.resetCuts ntypes setflag arg0 cut else cut)

/-- The allocate routine, lines 181-196 of pair_coul_diel_omp.cpp: fresh
tables with `setflag` zeroed.  The C++ arrays other than `setflag` are
allocated uninitialized; their indeterminate contents are modelled as 0. -/
def allocate (P : Data) : Data :=
  { P with setflag := fun _ _ => 0, sigmae := fun _ _ => 0, rme := fun _ _ => 0,
           offset := fun _ _ => 0, cut := fun _ _ => 0, cutsq := fun _ _ => 0 }

/-- Per-type-pair initialization, lines 271-293 of pair_coul_diel_omp.cpp:
an unset pair is a configuration error; otherwise the offset is precomputed
(from `atom->q` indexed by the type numbers, as in the source) and the
tables are mirrored to the transposed slot.  Returns the updated state and
the cutoff returned by `init_one`. -/
noncomputable def init_one (A : Atoms) (P : Data) (i j : ℕ) :
    Except String (Data × ℝ) :=
  if P.setflag i j = 0 then
    .error ("for pair style coul/diel, parameters need to be set explicitly for all pairs.")
  else
    let off : ℝ :=
      if P.offset_flag ≠ 0 then
        let rarg := (P.cut i j - P.rme i j) / P.sigmae i j
        let epsr := P.a_eps + P.b_eps * Real.tanh rarg
        P.qqrd2e * A.q i * A.q j * ((P.eps_s / epsr) - 1) / P.cut i j
      else 0
    let s1 : Data := { P with offset := upd2 P.offset i j off }
    let s2 : Data :=
      { s1 with sigmae := upd2 s1.sigmae j i (s1.sigmae i j),
                rme := upd2 s1.rme j i (s1.rme i j),
                offset := upd2 s1.offset j i (s1.offset i j),
                cut := upd2 s1.cut j i (s1.cut i j) }
    .ok (s2, s2.cut i j)

/-- Running `init_one` over a list of type pairs, as the surrounding engine
does once for every declared type pair during setup. -/
noncomputable def init_fold (A : Atoms) (L : List (ℕ × ℕ)) (P : Data) :
    Except String Data :=
  match L with
  | [] => .ok P
  | p :: rest =>
      match init_one A P p.1 p.2 with
      | .error e => .error e
      | .ok (P2, _) => init_fold A rest P2

/-- Symmetry of the four coefficient tables at one type pair. -/
def symmAt (P : Data) (i j : ℕ) : Prop :=
  P.sigmae i j = P.sigmae j i ∧ P.rme i j = P.rme j i ∧
    P.cut i j = P.cut j i ∧ P.offset i j = P.offset j i

/-- List of declared type pairs `(i,j)` with `1 ≤ i ≤ j ≤ n`, in the order
the restart loops of lines 303-312 and 324-338 of pair_coul_diel_omp.cpp
visit them. -/
def pairList (n : ℕ) : List (ℕ × ℕ) :=
  (List.range' 1 n).flatMap (fun i => (List.range' i (n + 1 - i)).map (fun j => (i, j)))

/-- Restart settings block writer, lines 345-350 of
pair_coul_diel_omp.cpp: `fwrite` of `cut_global`, `offset_flag`,
`mix_flag`.  Note that `eps_s`, `a_eps` and `b_eps` are not written. -/
def write_restart_settings (P : Data) : List RWord :=
  [.d P.cut_global, .i P.offset_flag, .i P.mix_flag]

/-- Restart settings block reader, lines 356-366 of
pair_coul_diel_omp.cpp: `fread` of `cut_global`, `offset_flag`, `mix_flag`
in that order. -/
def read_restart_settings (P : Data) (w : List RWord) :
    Option (Data × List RWord) :=
  match w with
  | .d cg :: .i ofl :: .i mfl :: rest =>
      some ({ P with cut_global := cg, offset_flag := ofl, mix_flag := mfl }, rest)
  | _ => none

/-- Restart writer, lines 299-313 of pair_coul_diel_omp.cpp: the settings
block followed by, for every `1 ≤ i ≤ j ≤ ntypes`, the `setflag[i][j]` word
and, when set, the `rme`, `sigmae` and `cut` entries. -/
def write_restart (n : ℕ) (P : Data) : List RWord :=
  write_restart_settings P ++
    (pairList n).flatMap (fun p =>
      .i (P.setflag p.1 p.2) ::
        (if P.setflag p.1 p.2 ≠ 0 then
          [.d (P.rme p.1 p.2), .d (P.sigmae p.1 p.2), .d (P.cut p.1 p.2)]
         else []))

/-- Per-pair part of the restart reader, lines 324-338 of
pair_coul_diel_omp.cpp: for each declared pair, the branch is guarded by
the current `setflag[i][j]` (the source never reads `setflag` back from the
stream); when the flag is set, three doubles are consumed into `rme`,
`sigmae` and `cut`. -/
def readPairLoop (L : List (ℕ × ℕ)) (P : Data) (w : List RWord) :
    Option (Data × List RWord) :=
  match L with
  | [] => some (P, w)
  | p :: rest =>
      if P.setflag p.1 p.2 ≠ 0 then
        match w with
        | .d r1 :: .d s1 :: .d c1 :: w2 =>
            readPairLoop rest
              { P with rme := upd2 P.rme p.1 p.2 r1,
                       sigmae := upd2 P.sigmae p.1 p.2 s1,
                       cut := upd2 P.cut p.1 p.2 c1 } w2
        | _ => none
      else readPairLoop rest P w

/-- Restart reader, lines 319-339 of pair_coul_diel_omp.cpp:
`read_restart_settings`, then `allocate()`, then the per-pair loop. -/
def read_restart (n : ℕ) (P0 : Data) (w : List RWord) :
    Option (Data × List RWord) :=
  match read_restart_settings P0 w with
  | none => none
  | some (P1, w1) => readPairLoop (pairList n) (allocate P1) w1

end PairCoulDielOMP

/-- Closed-form Debye-screened Coulomb pair potential, following the words
of the spec (section 4.2 step 3): energy is proportional to
`q_i*q_j*exp(-kappa*r)/r`, with the `qqrd2e` conversion prefactor. -/
noncomputable def specDebyePotential (qqrd2e qi qj kappa r : ℝ) : ℝ :=
  qqrd2e * qi * qj * Real.exp (-kappa * r) / r

/-- Modelled from the spec: "offset(i, j): precomputed potential value at
the cutoff radius" (section 4.1).  For the Debye style the initialization
that would store such an offset lives in the coul/cut parent class, which is
not part of the sources; this is the value the spec prescribes for it. -/
noncomputable def specOffsetDebye (qqrd2e qi qj kappa cut : ℝ) : ℝ :=
  specDebyePotential qqrd2e qi qj kappa cut

/-- Closed-form distance-dependent-dielectric Coulomb pair potential,
following the words of the spec (section 4.2 step 3): a hyperbolic-tangent
interpolation of the dielectric constant centered at the reference distance
`rme` with width `sigmae`. -/
noncomputable def specDielPotential (qqrd2e qi qj eps_s a_eps b_eps rme sigmae r : ℝ) : ℝ :=
  qqrd2e * qi * qj * ((eps_s / (a_eps + b_eps * Real.tanh ((r - rme) / sigmae))) - 1) / r


/-- Sample particle snapshot: two owned particles at distance 1 on the x
axis, unit charges, one atom type. -/
noncomputable def sampleAtoms : Atoms :=
  { nlocal := 2, nghost := 0,
    x := fun k => if k = 0 then ⟨0, 0, 0⟩ else ⟨1, 0, 0⟩,
    q := fun _ => 1, type := fun _ => 1 }

/-- Sample dielectric style state with every type pair explicitly set and
offset mode enabled. -/
noncomputable def sampleDiel : PairCoulDielOMP.Data :=
  { qqrd2e := 1, special_coul := fun _ => 1, eps_s := 80, a_eps := 3,
    b_eps := 2, cut_global := 5, offset_flag := 1, mix_flag := 0,
    setflag := fun _ _ => 1, sigmae := fun _ _ => 1, rme := fun _ _ => 2,
    offset := fun _ _ => 0, cut := fun _ _ => 5, cutsq := fun _ _ => 25 }

/-- Sample Debye style state. -/
noncomputable def sampleDebye : PairCoulDebyeOMP.Data :=
  { qqrd2e := 1, special_coul := fun _ => 1, kappa := 1/2, cut_global := 5,
    offset_flag := 0, mix_flag := 0, setflag := fun _ _ => 1,
    cut := fun _ _ => 5, cutsq := fun _ _ => 25 }

/-- Zeroed accumulator state. -/
noncomputable def sampleAcc : EvalAcc := ⟨fun _ => ⟨0, 0, 0⟩, 0⟩

/-- C1 counterexample: a neighbor entry whose squared separation is exactly
zero is not rejected by either bulk kernel: with any positive squared
cutoff the guard `rsq < cutsq` holds at `rsq = 0` and the branch that
computes the reciprocal of `rsq` is taken, so the claim that the kernel
rejects such a pair is false. -/
theorem C1_counterexample :
    (PairCoulDebyeOMP.pairContribution 1 0 1 1 1 0 25).isSome = true ∧
    (PairCoulDielOMP.pairContribution 1 80 3 2 2 1 0 1 1 1 0 25).isSome = true := by
  constructor
  · rw [PairCoulDebyeOMP.pairContribution, if_pos (by norm_num : (0:ℝ) < 25)]
    rfl
  · rw [PairCoulDielOMP.pairContribution, if_pos (by norm_num : (0:ℝ) < 25)]
    rfl

/-- C1 amended: both bulk kernels skip a neighbor pair exactly when the
squared separation is at least the squared cutoff; in particular an entry
with `rsq = 0` and a positive squared cutoff is accepted and the
reciprocal-distance expressions are evaluated (the sources assume
`rsq > 0` and leave zero-distance guarding to the caller), and the
single-pair queries perform no rejection at all. -/
theorem C1_skip_iff (qqrd2e kappa eps_s a_eps b_eps rme_ij sigmae_ij offset_ij qtmp qj fc rsq cutsq_ij : ℝ) :
    (PairCoulDebyeOMP.pairContribution qqrd2e kappa qtmp qj fc rsq cutsq_ij = none
      ↔ ¬ rsq < cutsq_ij) ∧
    (PairCoulDielOMP.pairContribution qqrd2e eps_s a_eps b_eps rme_ij sigmae_ij offset_ij qtmp qj fc rsq cutsq_ij = none
      ↔ ¬ rsq < cutsq_ij) := by
  constructor
  · rw [PairCoulDebyeOMP.pairContribution]
    by_cases h : rsq < cutsq_ij <;> simp [h]
  · rw [PairCoulDielOMP.pairContribution]
    by_cases h : rsq < cutsq_ij <;> simp [h]

/-- Dielectric style state whose offset column differs between the
declared type column and the rest: offset is 0 in column 1 but 1
elsewhere, so the energy depends on which column the uninitialized
`jtype` selects.  `b_eps = 0` keeps the interpolation constant so the
values are elementary. -/
noncomputable def offsetDiel : PairCoulDielOMP.Data :=
  { qqrd2e := 1, special_coul := fun _ => 1, eps_s := 2, a_eps := 1,
    b_eps := 0, cut_global := 5, offset_flag := 1, mix_flag := 0,
    setflag := fun _ _ => 1, sigmae := fun _ _ => 1, rme := fun _ _ => 1,
    offset := fun _ b => if b = 1 then 0 else 1, cut := fun _ _ => 5,
    cutsq := fun _ _ => 25 }

/-- C5 fails on the code for the dielectric style: the bulk eval loop
indexes `rme`, `sigmae`, `offset` and `cutsq` with the uninitialized
`jtype` variable (never assigned in pair_coul_diel_omp.cpp, unlike the
Debye file), while `single` uses the type arguments passed to it, so the
two need not agree.  The first conjunct records that for the Debye style
`single` does return exactly the eval-loop per-pair energy and force
prefactor for all inputs; the remaining conjuncts evaluate the failing
input: with both particles of type 1 and garbage `jtype = 2`, the bulk
loop accumulates pair energy 0 (it subtracts the garbage-indexed
`offset[1][2] = 1`) while `single` for the same pair and the true types
returns energy 1. -/
theorem C5_single_vs_bulk :
    (∀ qqrd2e kappa qi qj rsq fc : ℝ,
      PairCoulDebyeOMP.single qqrd2e kappa qi qj rsq fc
        = (PairCoulDebyeOMP.ecoulOf qqrd2e kappa qi qj fc rsq,
           PairCoulDebyeOMP.fpairOf qqrd2e kappa qi qj fc rsq)) ∧
    (PairCoulDielOMP.evalStep true true true 2 sampleAtoms 0
        (offsetDiel, sampleAcc) 1).2.eng_coul = 0 ∧
    (PairCoulDielOMP.single offsetDiel.qqrd2e offsetDiel.eps_s offsetDiel.a_eps
        offsetDiel.b_eps (offsetDiel.rme (sampleAtoms.type 0) (sampleAtoms.type 1))
        (offsetDiel.sigmae (sampleAtoms.type 0) (sampleAtoms.type 1))
        (offsetDiel.offset (sampleAtoms.type 0) (sampleAtoms.type 1))
        (sampleAtoms.q 0) (sampleAtoms.q 1) (rsqOf sampleAtoms 0 1) 1).1 = 1 ∧
    (PairCoulDielOMP.evalStep true true true 2 sampleAtoms 0
        (offsetDiel, sampleAcc) 1).2.eng_coul
      ≠ (PairCoulDielOMP.single offsetDiel.qqrd2e offsetDiel.eps_s offsetDiel.a_eps
          offsetDiel.b_eps (offsetDiel.rme (sampleAtoms.type 0) (sampleAtoms.type 1))
          (offsetDiel.sigmae (sampleAtoms.type 0) (sampleAtoms.type 1))
          (offsetDiel.offset (sampleAtoms.type 0) (sampleAtoms.type 1))
          (sampleAtoms.q 0) (sampleAtoms.q 1) (rsqOf sampleAtoms 0 1) 1).1 := by
  have hdebye : ∀ qqrd2e kappa qi qj rsq fc : ℝ,
      PairCoulDebyeOMP.single qqrd2e kappa qi qj rsq fc
        = (PairCoulDebyeOMP.ecoulOf qqrd2e kappa qi qj fc rsq,
           PairCoulDebyeOMP.fpairOf qqrd2e kappa qi qj fc rsq) := by
    intro qqrd2e kappa qi qj rsq fc
    simp only [PairCoulDebyeOMP.single, PairCoulDebyeOMP.ecoulOf,
      PairCoulDebyeOMP.fpairOf, Prod.mk.injEq]
    constructor <;> ring_nf
  have hbulk : (PairCoulDielOMP.evalStep true true true 2 sampleAtoms 0
      (offsetDiel, sampleAcc) 1).2.eng_coul = 0 := by
    norm_num [PairCoulDielOMP.evalStep, PairCoulDielOMP.pairContribution,
      PairCoulDielOMP.fpairOf, PairCoulDielOMP.ecoulOf, offsetDiel,
      sampleAtoms, sampleAcc, addF, rsqOf, delxOf, delyOf, delzOf,
      Real.sqrt_one]
  have hsingle : (PairCoulDielOMP.single offsetDiel.qqrd2e offsetDiel.eps_s
      offsetDiel.a_eps offsetDiel.b_eps
      (offsetDiel.rme (sampleAtoms.type 0) (sampleAtoms.type 1))
      (offsetDiel.sigmae (sampleAtoms.type 0) (sampleAtoms.type 1))
      (offsetDiel.offset (sampleAtoms.type 0) (sampleAtoms.type 1))
      (sampleAtoms.q 0) (sampleAtoms.q 1) (rsqOf sampleAtoms 0 1) 1).1 = 1 := by
    norm_num [PairCoulDielOMP.single, offsetDiel, sampleAtoms, rsqOf,
      delxOf, delyOf, delzOf, Real.sqrt_one]
  refine ⟨hdebye, hbulk, hsingle, ?_⟩
  rw [hbulk, hsingle]
  norm_num

/-- C6: Debye formula with charges +1 and -1 at separation r = 1 (so
rsq = 1), kappa = 1/2, qqrd2e = 1, cutoff 5 (cutsq 25) and exclusion factor
1: the eval loop accepts the pair and computes force prefactor
-(3/2)*exp(-1/2) and energy -exp(-1/2); the single-pair query returns the
same values; the magnitudes are (3/2)*exp(-1/2) and exp(-1/2) exactly as
the closed forms prescribe. -/
theorem C6_debye_concrete_scenario :
    PairCoulDebyeOMP.pairContribution 1 (1/2) 1 (-1) 1 1 25
      = some (-(3/2 * Real.exp (-(1/2))), -Real.exp (-(1/2))) ∧
    PairCoulDebyeOMP.single 1 (1/2) 1 (-1) 1 1
      = (-Real.exp (-(1/2)), -(3/2 * Real.exp (-(1/2)))) ∧
    |(-(3/2 * Real.exp (-(1/2))))| = 3/2 * Real.exp (-(1/2)) ∧
    |(-Real.exp (-(1/2)))| = Real.exp (-(1/2)) := by
  have habs1 : |(-(3/2 * Real.exp (-(1/2))))| = 3/2 * Real.exp (-(1/2)) := by
    rw [abs_neg, abs_of_pos]
    positivity
  have habs2 : |(-Real.exp (-(1/2)))| = Real.exp (-(1/2)) := by
    rw [abs_neg, abs_of_pos (Real.exp_pos _)]
  refine ⟨?_, ?_, habs1, habs2⟩
  · rw [PairCoulDebyeOMP.pairContribution, if_pos (by norm_num : (1:ℝ) < 25)]
    simp only [PairCoulDebyeOMP.fpairOf, PairCoulDebyeOMP.ecoulOf, Real.sqrt_one]
    norm_num
    ring
  · simp only [PairCoulDebyeOMP.single, Real.sqrt_one]
    norm_num
    ring

/-- C2 counterexample: with offset mode enabled, an in-cutoff Debye pair
(unit charges, kappa = 0, qqrd2e = 1, rsq = 1, cutoff 2 so cutsq = 4) is
accepted by the eval loop, and its accumulated energy is the plain closed
form with no offset subtraction: it differs from the closed-form potential
minus the potential value at the cutoff radius, so the claim fails for the
Debye formula. -/
theorem C2_counterexample :
    (PairCoulDebyeOMP.pairContribution 1 0 1 1 1 1 4).map Prod.snd
      = some (PairCoulDebyeOMP.ecoulOf 1 0 1 1 1 1) ∧
    PairCoulDebyeOMP.ecoulOf 1 0 1 1 1 1
      ≠ specDebyePotential 1 1 1 0 (Real.sqrt 1) - specOffsetDebye 1 1 1 0 2 := by
  constructor
  · rw [PairCoulDebyeOMP.pairContribution, if_pos (by norm_num : (1:ℝ) < 4)]
    rfl
  · simp only [PairCoulDebyeOMP.ecoulOf, specDebyePotential, specOffsetDebye,
      Real.sqrt_one]
    norm_num

/-- C2 amended: with energy accounting on, the dielectric eval loop
accumulates the closed-form dielectric potential minus the stored
`offset[itype][jtype]`, times the exclusion factor, and when offset mode is
enabled `init_one` precomputes that offset as the dielectric potential at
the cutoff radius evaluated with the charges of the atoms indexed by the
type numbers; the Debye eval loop accumulates the closed-form Debye
potential times the exclusion factor with no offset subtraction. -/
theorem C2_energy_offset_amended
    (qqrd2e eps_s a_eps b_eps rme_ij sigmae_ij offset_ij qtmp qj fc rsq kappa : ℝ)
    (A : Atoms) (P : PairCoulDielOMP.Data) (i j : ℕ)
    (hset : P.setflag i j ≠ 0) (hoff : P.offset_flag ≠ 0) :
    PairCoulDielOMP.ecoulOf qqrd2e eps_s a_eps b_eps rme_ij sigmae_ij offset_ij qtmp qj fc rsq
      = fc * (specDielPotential qqrd2e qtmp qj eps_s a_eps b_eps rme_ij sigmae_ij (Real.sqrt rsq)
              - offset_ij) ∧
    (∃ P2 c, PairCoulDielOMP.init_one A P i j = .ok (P2, c) ∧
      P2.offset i j = specDielPotential P.qqrd2e (A.q i) (A.q j) P.eps_s P.a_eps P.b_eps
        (P.rme i j) (P.sigmae i j) (P.cut i j)) ∧
    PairCoulDebyeOMP.ecoulOf qqrd2e kappa qtmp qj fc rsq
      = fc * specDebyePotential qqrd2e qtmp qj kappa (Real.sqrt rsq) := by
  refine ⟨?_, ?_, ?_⟩
  · simp only [PairCoulDielOMP.ecoulOf, specDielPotential]
    ring
  · rw [PairCoulDielOMP.init_one, if_neg hset]
    refine ⟨_, _, rfl, ?_⟩
    simp only [upd2, specDielPotential]
    by_cases hij : i = j <;> simp [hij, hoff]
  · simp only [PairCoulDebyeOMP.ecoulOf, specDebyePotential]
    ring

/-- Witness for the amended C2 theorem at a concrete configured state. -/
theorem C2_energy_offset_amended_witness :
    sampleDiel.setflag 1 1 ≠ 0 ∧ sampleDiel.offset_flag ≠ 0 ∧
    (PairCoulDielOMP.ecoulOf 1 80 3 2 2 1 0 1 1 1 1
        = 1 * (specDielPotential 1 1 1 80 3 2 2 1 (Real.sqrt 1) - 0) ∧
      (∃ P2 c, PairCoulDielOMP.init_one sampleAtoms sampleDiel 1 1 = .ok (P2, c) ∧
        P2.offset 1 1 = specDielPotential sampleDiel.qqrd2e (sampleAtoms.q 1)
          (sampleAtoms.q 1) sampleDiel.eps_s sampleDiel.a_eps sampleDiel.b_eps
          (sampleDiel.rme 1 1) (sampleDiel.sigmae 1 1) (sampleDiel.cut 1 1)) ∧
      PairCoulDebyeOMP.ecoulOf 1 (1/2) 1 1 1 1
        = 1 * specDebyePotential 1 1 1 (1/2) (Real.sqrt 1)) :=
  ⟨by simp [sampleDiel], by simp [sampleDiel],
   C2_energy_offset_amended 1 80 3 2 2 1 0 1 1 1 1 (1/2) sampleAtoms sampleDiel 1 1
     (by simp [sampleDiel]) (by simp [sampleDiel])⟩

/-- C8: initializing an unset type pair is a configuration error for the
dielectric style (no mixing rule), raised by `init_one` before any force
evaluation can run, while for the Debye style (whose `init_one` is
inherited from the coul/cut family and modelled from the spec) an unset
pair does not error and receives the global cutoff as default. -/
theorem C8_unset_pair_behavior (A : Atoms) (P : PairCoulDielOMP.Data)
    (cut_global : ℝ) (setflagB : ℕ → ℕ → ℤ) (cutB : ℕ → ℕ → ℝ) (i j : ℕ)
    (hd : P.setflag i j = 0) (hb : setflagB i j = 0) :
    PairCoulDielOMP.init_one A P i j
      = .error ("for pair style coul/diel, parameters need to be set explicitly for all pairs.") ∧
    PairCoulDebyeOMP.init_one_spec cut_global setflagB cutB i j = .ok cut_global := by
  constructor
  · rw [PairCoulDielOMP.init_one, if_pos hd]
  · rw [PairCoulDebyeOMP.init_one_spec, if_pos hb]

/-- Witness for C8 at a concrete unset state: the sample dielectric state
with its set flags cleared, and a cleared Debye flag table. -/
theorem C8_unset_pair_behavior_witness :
    ({ sampleDiel with setflag := fun _ _ => 0 } : PairCoulDielOMP.Data).setflag 1 2 = 0 ∧
    (fun (_ _ : ℕ) => (0:ℤ)) 1 2 = 0 ∧
    (PairCoulDielOMP.init_one sampleAtoms { sampleDiel with setflag := fun _ _ => 0 } 1 2
        = .error ("for pair style coul/diel, parameters need to be set explicitly for all pairs.") ∧
      PairCoulDebyeOMP.init_one_spec 5 (fun _ _ => 0) (fun _ _ => 3) 1 2 = .ok 5) :=
  ⟨rfl, rfl,
   C8_unset_pair_behavior sampleAtoms { sampleDiel with setflag := fun _ _ => 0 }
     5 (fun _ _ => 0) (fun _ _ => 3) 1 2 rfl rfl⟩

/-- Force prefactor the Debye eval loop computes for an undecorated
neighbor pair (exclusion factor 1). -/
noncomputable def debyeFpairAt (P : PairCoulDebyeOMP.Data) (A : Atoms) (i j : ℕ) : ℝ :=
  PairCoulDebyeOMP.fpairOf P.qqrd2e P.kappa (A.q i) (A.q j) 1 (rsqOf A i j)

/-- Force prefactor the dielectric eval loop computes for an undecorated
neighbor pair (exclusion factor 1) when the uninitialized `jtype` variable
happens to hold the value `jt`: the `rme` and `sigmae` tables are indexed
by `(itype, jt)`, as at lines 140 and 143 of the source. -/
noncomputable def dielFpairAt (P : PairCoulDielOMP.Data) (A : Atoms) (i j jt : ℕ) : ℝ :=
  PairCoulDielOMP.fpairOf P.qqrd2e P.eps_s P.a_eps P.b_eps
    (P.rme (A.type i) jt) (P.sigmae (A.type i) jt)
    (A.q i) (A.q j) 1 (rsqOf A i j)

/-- C4: for an in-cutoff undecorated neighbor pair, both eval loops always
add the pair force to the owner slot of the accumulator, and they subtract
it from the partner slot exactly when symmetric accumulation is on or the
partner is owned; when symmetric mode is off and the partner is a ghost the
partner slot is untouched.  For the dielectric loop the statement is
quantified over the arbitrary value `jt` held by the uninitialized `jtype`
variable: whenever the loop takes the in-cutoff branch (judged against the
`jt`-indexed cutoff, as the source does), the accumulation pattern holds,
with the force prefactor the loop actually computes from the `jt`-indexed
tables. -/
theorem C4_force_accumulation (EV EF NP : Bool) (jt : ℕ) (P : PairCoulDebyeOMP.Data)
    (D : PairCoulDielOMP.Data) (A : Atoms) (i jj : ℕ) (acc accD : EvalAcc)
    (hjj : jj < A.nlocal + A.nghost) (hij : i ≠ jj)
    (hcutP : rsqOf A i jj < P.cutsq (A.type i) (A.type jj))
    (hcutD : rsqOf A i jj < D.cutsq (A.type i) jt) :
    ((PairCoulDebyeOMP.evalStep EV EF NP P A i acc jj).f i
        = ⟨(acc.f i).x + delxOf A i jj * debyeFpairAt P A i jj,
           (acc.f i).y + delyOf A i jj * debyeFpairAt P A i jj,
           (acc.f i).z + delzOf A i jj * debyeFpairAt P A i jj⟩ ∧
      ((NP = true ∨ jj < A.nlocal) →
        (PairCoulDebyeOMP.evalStep EV EF NP P A i acc jj).f jj
          = ⟨(acc.f jj).x + -(delxOf A i jj * debyeFpairAt P A i jj),
             (acc.f jj).y + -(delyOf A i jj * debyeFpairAt P A i jj),
             (acc.f jj).z + -(delzOf A i jj * debyeFpairAt P A i jj)⟩) ∧
      (¬(NP = true ∨ jj < A.nlocal) →
        (PairCoulDebyeOMP.evalStep EV EF NP P A i acc jj).f jj = acc.f jj)) ∧
    (((PairCoulDielOMP.evalStep EV EF NP jt A i (D, accD) jj).2.f i
        = ⟨(accD.f i).x + delxOf A i jj * dielFpairAt D A i jj jt,
           (accD.f i).y + delyOf A i jj * dielFpairAt D A i jj jt,
           (accD.f i).z + delzOf A i jj * dielFpairAt D A i jj jt⟩ ∧
      ((NP = true ∨ jj < A.nlocal) →
        (PairCoulDielOMP.evalStep EV EF NP jt A i (D, accD) jj).2.f jj
          = ⟨(accD.f jj).x + -(delxOf A i jj * dielFpairAt D A i jj jt),
             (accD.f jj).y + -(delyOf A i jj * dielFpairAt D A i jj jt),
             (accD.f jj).z + -(delzOf A i jj * dielFpairAt D A i jj jt)⟩) ∧
      (¬(NP = true ∨ jj < A.nlocal) →
        (PairCoulDielOMP.evalStep EV EF NP jt A i (D, accD) jj).2.f jj = accD.f jj))) := by
  constructor
  · simp only [PairCoulDebyeOMP.evalStep, PairCoulDebyeOMP.pairContribution,
      if_pos hjj, if_pos hcutP]
    refine ⟨?_, ?_, ?_⟩
    · by_cases hb : NP = true ∨ jj < A.nlocal <;>
        simp [hb, addF, hij, Ne.symm hij, debyeFpairAt]
    · intro hb
      simp [hb, addF, hij, Ne.symm hij, debyeFpairAt]
    · intro hb
      simp [hb, addF, hij, Ne.symm hij]
  · simp only [PairCoulDielOMP.evalStep, PairCoulDielOMP.pairContribution,
      if_pos hjj, if_pos hcutD]
    refine ⟨?_, ?_, ?_⟩
    · by_cases hb : NP = true ∨ jj < A.nlocal <;>
        simp [hb, addF, hij, Ne.symm hij, dielFpairAt]
    · intro hb
      simp [hb, addF, hij, Ne.symm hij, dielFpairAt]
    · intro hb
      simp [hb, addF, hij, Ne.symm hij]

/-- Witness for C4 at a concrete in-cutoff pair of owned particles, with
the indeterminate `jtype` value instantiated to 2 (a value different from
every declared atom type, as uninitialized garbage may be). -/
theorem C4_force_accumulation_witness :
    1 < sampleAtoms.nlocal + sampleAtoms.nghost ∧ (0:ℕ) ≠ 1 ∧
    rsqOf sampleAtoms 0 1 < sampleDebye.cutsq (sampleAtoms.type 0) (sampleAtoms.type 1) ∧
    rsqOf sampleAtoms 0 1 < sampleDiel.cutsq (sampleAtoms.type 0) 2 ∧
    (PairCoulDebyeOMP.evalStep true true true sampleDebye sampleAtoms 0 sampleAcc 1).f 0
      = ⟨(sampleAcc.f 0).x + delxOf sampleAtoms 0 1 * debyeFpairAt sampleDebye sampleAtoms 0 1,
         (sampleAcc.f 0).y + delyOf sampleAtoms 0 1 * debyeFpairAt sampleDebye sampleAtoms 0 1,
         (sampleAcc.f 0).z + delzOf sampleAtoms 0 1 * debyeFpairAt sampleDebye sampleAtoms 0 1⟩ ∧
    (PairCoulDielOMP.evalStep true true true 2 sampleAtoms 0 (sampleDiel, sampleAcc) 1).2.f 0
      = ⟨(sampleAcc.f 0).x + delxOf sampleAtoms 0 1 * dielFpairAt sampleDiel sampleAtoms 0 1 2,
         (sampleAcc.f 0).y + delyOf sampleAtoms 0 1 * dielFpairAt sampleDiel sampleAtoms 0 1 2,
         (sampleAcc.f 0).z + delzOf sampleAtoms 0 1 * dielFpairAt sampleDiel sampleAtoms 0 1 2⟩ := by
  have h1 : 1 < sampleAtoms.nlocal + sampleAtoms.nghost := by
    norm_num [sampleAtoms]
  have h2 : (0:ℕ) ≠ 1 := by norm_num
  have h3 : rsqOf sampleAtoms 0 1 < sampleDebye.cutsq (sampleAtoms.type 0) (sampleAtoms.type 1) := by
    norm_num [rsqOf, delxOf, delyOf, delzOf, sampleAtoms, sampleDebye]
  have h4 : rsqOf sampleAtoms 0 1 < sampleDiel.cutsq (sampleAtoms.type 0) 2 := by
    norm_num [rsqOf, delxOf, delyOf, delzOf, sampleAtoms, sampleDiel]
  have H := C4_force_accumulation true true true 2 sampleDebye sampleDiel sampleAtoms 0 1
    sampleAcc sampleAcc h1 h2 h3 h4
  exact ⟨h1, h2, h3, h4, H.1.1, H.2.1⟩

/-- The force array produced by one Debye loop body does not depend on the
energy flags nor on the incoming energy accumulator. -/
theorem debye_evalStep_f_congr (EV EF EV2 EF2 NP : Bool) (P : PairCoulDebyeOMP.Data)
    (A : Atoms) (i jj : ℕ) (acc acc2 : EvalAcc) (hf : acc.f = acc2.f) :
    (PairCoulDebyeOMP.evalStep EV EF NP P A i acc jj).f
      = (PairCoulDebyeOMP.evalStep EV2 EF2 NP P A i acc2 jj).f := by
  obtain ⟨fa, e1⟩ := acc
  obtain ⟨fa2, e2⟩ := acc2
  simp only at hf
  subst hf
  simp only [PairCoulDebyeOMP.evalStep]
  split <;> rename_i heq <;> simp only [heq]

/-- The force array produced by one Debye neighbor-list fold does not
depend on the energy flags nor on the incoming energy accumulator. -/
theorem debye_foldl_f_congr (EV EF EV2 EF2 NP : Bool) (P : PairCoulDebyeOMP.Data)
    (A : Atoms) (i : ℕ) (js : List ℕ) :
    ∀ acc acc2 : EvalAcc, acc.f = acc2.f →
      (js.foldl (PairCoulDebyeOMP.evalStep EV EF NP P A i) acc).f
        = (js.foldl (PairCoulDebyeOMP.evalStep EV2 EF2 NP P A i) acc2).f := by
  induction js with
  | nil => intro acc acc2 hf; simpa using hf
  | cons jj rest ih =>
      intro acc acc2 hf
      exact ih _ _ (debye_evalStep_f_congr EV EF EV2 EF2 NP P A i jj acc acc2 hf)

/-- The force array produced by the whole Debye eval loop does not depend
on the energy flags nor on the incoming energy accumulator. -/
theorem debye_eval_f_congr (EV EF EV2 EF2 NP : Bool) (P : PairCoulDebyeOMP.Data)
    (A : Atoms) (nlist : List (ℕ × List ℕ)) :
    ∀ acc acc2 : EvalAcc, acc.f = acc2.f →
      (PairCoulDebyeOMP.eval EV EF NP P A nlist acc).f
        = (PairCoulDebyeOMP.eval EV2 EF2 NP P A nlist acc2).f := by
  induction nlist with
  | nil => intro acc acc2 hf; simpa [PairCoulDebyeOMP.eval] using hf
  | cons e rest ih =>
      intro acc acc2 hf
      simpa [PairCoulDebyeOMP.eval, PairCoulDebyeOMP.evalAtom] using
        ih _ _ (debye_foldl_f_congr EV EF EV2 EF2 NP P A e.1 e.2 acc acc2 hf)

/-- The tables and the force array produced by one dielectric loop body do
not depend on the energy flags nor on the incoming energy accumulator. -/
theorem diel_evalStep_f_congr (EV EF EV2 EF2 NP : Bool) (jt : ℕ) (A : Atoms) (i jj : ℕ)
    (w w2 : PairCoulDielOMP.Data × EvalAcc) (hP : w.1 = w2.1) (hf : w.2.f = w2.2.f) :
    (PairCoulDielOMP.evalStep EV EF NP jt A i w jj).1
        = (PairCoulDielOMP.evalStep EV2 EF2 NP jt A i w2 jj).1 ∧
    (PairCoulDielOMP.evalStep EV EF NP jt A i w jj).2.f
        = (PairCoulDielOMP.evalStep EV2 EF2 NP jt A i w2 jj).2.f := by
  obtain ⟨P, fa, e1⟩ := w
  obtain ⟨P2, fa2, e2⟩ := w2
  simp only at hP hf
  subst hP
  subst hf
  simp only [PairCoulDielOMP.evalStep]
  split <;> rename_i heq <;> simp [heq]

/-- The tables and the force array produced by one dielectric neighbor-list
fold do not depend on the energy flags nor on the incoming energy
accumulator. -/
theorem diel_foldl_f_congr (EV EF EV2 EF2 NP : Bool) (jt : ℕ) (A : Atoms) (i : ℕ)
    (js : List ℕ) :
    ∀ w w2 : PairCoulDielOMP.Data × EvalAcc, w.1 = w2.1 → w.2.f = w2.2.f →
      (js.foldl (PairCoulDielOMP.evalStep EV EF NP jt A i) w).1
          = (js.foldl (PairCoulDielOMP.evalStep EV2 EF2 NP jt A i) w2).1 ∧
      (js.foldl (PairCoulDielOMP.evalStep EV EF NP jt A i) w).2.f
          = (js.foldl (PairCoulDielOMP.evalStep EV2 EF2 NP jt A i) w2).2.f := by
  induction js with
  | nil => intro w w2 hP hf; exact ⟨hP, hf⟩
  | cons jj rest ih =>
      intro w w2 hP hf
      obtain ⟨h1, h2⟩ := diel_evalStep_f_congr EV EF EV2 EF2 NP jt A i jj w w2 hP hf
      exact ih _ _ h1 h2

/-- The tables and the force array produced by the whole dielectric eval
loop do not depend on the energy flags nor on the incoming energy
accumulator. -/
theorem diel_eval_f_congr (EV EF EV2 EF2 NP : Bool) (jt : ℕ) (A : Atoms)
    (nlist : List (ℕ × List ℕ)) :
    ∀ w w2 : PairCoulDielOMP.Data × EvalAcc, w.1 = w2.1 → w.2.f = w2.2.f →
      (PairCoulDielOMP.eval EV EF NP jt A nlist w).1
          = (PairCoulDielOMP.eval EV2 EF2 NP jt A nlist w2).1 ∧
      (PairCoulDielOMP.eval EV EF NP jt A nlist w).2.f
          = (PairCoulDielOMP.eval EV2 EF2 NP jt A nlist w2).2.f := by
  induction nlist with
  | nil => intro w w2 hP hf; exact ⟨hP, hf⟩
  | cons e rest ih =>
      intro w w2 hP hf
      obtain ⟨h1, h2⟩ := diel_foldl_f_congr EV EF EV2 EF2 NP jt A e.1 e.2 w w2 hP hf
      exact ih _ _ h1 h2

/-- Dielectric style state whose garbage-indexed cutoff column differs
from the declared one: cutsq is 25 in column 1 but 0 elsewhere, so which
column the uninitialized `jtype` selects decides whether a pair is inside
the cutoff at all.  `b_eps = 0` keeps the interpolation constant so the
force value is elementary. -/
noncomputable def cutDiel : PairCoulDielOMP.Data :=
  { qqrd2e := 1, special_coul := fun _ => 1, eps_s := 2, a_eps := 1,
    b_eps := 0, cut_global := 5, offset_flag := 0, mix_flag := 0,
    setflag := fun _ _ => 1, sigmae := fun _ _ => 1, rme := fun _ _ => 1,
    offset := fun _ _ => 0, cut := fun _ b => if b = 1 then 5 else 0,
    cutsq := fun _ b => if b = 1 then 25 else 0 }

/-- C7 fails on the code for the dielectric style: the energy-on and
energy-off runs select different template instantiations of `eval`, each
with its own stack frame, so the uninitialized `jtype` can hold different
values in the two runs, and the force arrays then differ.  The first two
conjuncts record what does hold: the Debye forces are eflag-independent
unconditionally, and the dielectric forces are eflag-independent whenever
the two instantiations happen to hold the same `jtype` value; the last
conjunct evaluates the failing input, where the energy-on run (garbage 1)
computes force component -1 on particle 0 while the energy-off run
(garbage 2) reads a garbage-indexed cutoff of 0 and skips the pair. -/
theorem C7_forces_eflag_divergence :
    (∀ (e1 e2 v np : Bool) (P : PairCoulDebyeOMP.Data) (A : Atoms)
       (nlist : List (ℕ × List ℕ)) (acc : EvalAcc),
      (PairCoulDebyeOMP.compute e1 v np P A nlist acc).f
        = (PairCoulDebyeOMP.compute e2 v np P A nlist acc).f) ∧
    (∀ (e1 e2 v np : Bool) (jt : ℕ) (A : Atoms) (nlist : List (ℕ × List ℕ))
       (w : PairCoulDielOMP.Data × EvalAcc),
      (PairCoulDielOMP.compute e1 v np jt A nlist w).2.f
        = (PairCoulDielOMP.compute e2 v np jt A nlist w).2.f) ∧
    ((PairCoulDielOMP.compute true false true 1 sampleAtoms [(0, [1])]
        (cutDiel, sampleAcc)).2.f 0).x
      ≠ ((PairCoulDielOMP.compute false false true 2 sampleAtoms [(0, [1])]
        (cutDiel, sampleAcc)).2.f 0).x := by
  refine ⟨?_, ?_, ?_⟩
  · intro e1 e2 v np P A nlist acc
    cases e1 <;> cases e2 <;> cases v <;>
      simp [PairCoulDebyeOMP.compute] <;>
      exact debye_eval_f_congr _ _ _ _ np P A nlist acc acc rfl
  · intro e1 e2 v np jt A nlist w
    cases e1 <;> cases e2 <;> cases v <;>
      simp [PairCoulDielOMP.compute] <;>
      exact (diel_eval_f_congr _ _ _ _ np jt A nlist w w rfl rfl).2
  · have hL : ((PairCoulDielOMP.compute true false true 1 sampleAtoms [(0, [1])]
        (cutDiel, sampleAcc)).2.f 0).x = -1 := by
      norm_num [PairCoulDielOMP.compute, PairCoulDielOMP.eval,
        PairCoulDielOMP.evalAtom, PairCoulDielOMP.evalStep,
        PairCoulDielOMP.pairContribution, PairCoulDielOMP.fpairOf,
        PairCoulDielOMP.ecoulOf, cutDiel, sampleAtoms, sampleAcc, addF,
        rsqOf, delxOf, delyOf, delzOf, Real.sqrt_one]
    have hR : ((PairCoulDielOMP.compute false false true 2 sampleAtoms [(0, [1])]
        (cutDiel, sampleAcc)).2.f 0).x = 0 := by
      norm_num [PairCoulDielOMP.compute, PairCoulDielOMP.eval,
        PairCoulDielOMP.evalAtom, PairCoulDielOMP.evalStep,
        PairCoulDielOMP.pairContribution, cutDiel, sampleAtoms, sampleAcc,
        rsqOf, delxOf, delyOf, delzOf]
    rw [hL, hR]
    norm_num

/-- A cutoff-reset row touches no slot outside its own row. -/
theorem resetRow_ne (sf : ℕ → ℕ → ℤ) (cg : ℝ) (i : ℕ) (js : List ℕ) :
    ∀ (c : ℕ → ℕ → ℝ) (a b : ℕ), a ≠ i →
      (js.foldl (fun c2 j => if sf i j ≠ 0 then upd2 c2 i j cg else c2) c) a b
        = c a b := by
  induction js with
  | nil => intro c a b _; rfl
  | cons j rest ih =>
      intro c a b ha
      simp only [List.foldl_cons]
      rw [ih _ a b ha]
      by_cases h : sf i j ≠ 0 <;> simp [h, upd2, ha]

/-- A cutoff-reset row leaves columns it does not visit unchanged. -/
theorem resetRow_not_mem (sf : ℕ → ℕ → ℤ) (cg : ℝ) (i : ℕ) (js : List ℕ) :
    ∀ (c : ℕ → ℕ → ℝ) (b : ℕ), b ∉ js →
      (js.foldl (fun c2 j => if sf i j ≠ 0 then upd2 c2 i j cg else c2) c) i b
        = c i b := by
  induction js with
  | nil => intro c b _; rfl
  | cons j rest ih =>
      intro c b hb
      simp only [List.mem_cons, not_or] at hb
      simp only [List.foldl_cons]
      rw [ih _ b hb.2]
      by_cases h : sf i j ≠ 0 <;> simp [h, upd2, hb.1]

/-- A cutoff-reset row leaves unset slots unchanged. -/
theorem resetRow_unset (sf : ℕ → ℕ → ℤ) (cg : ℝ) (i : ℕ) (js : List ℕ) :
    ∀ (c : ℕ → ℕ → ℝ) (b : ℕ), sf i b = 0 →
      (js.foldl (fun c2 j => if sf i j ≠ 0 then upd2 c2 i j cg else c2) c) i b
        = c i b := by
  induction js with
  | nil => intro c b _; rfl
  | cons j rest ih =>
      intro c b hb
      simp only [List.foldl_cons]
      rw [ih _ b hb]
      by_cases hj : j = b
      · subst hj
        simp [hb]
      · by_cases h : sf i j ≠ 0 <;> simp [h, upd2, Ne.symm hj]

/-- A cutoff-reset row writes the global cutoff into every visited set
slot. -/
theorem resetRow_set (sf : ℕ → ℕ → ℤ) (cg : ℝ) (i : ℕ) (js : List ℕ) :
    ∀ (c : ℕ → ℕ → ℝ) (b : ℕ), sf i b ≠ 0 → (c i b = cg ∨ b ∈ js) →
      (js.foldl (fun c2 j => if sf i j ≠ 0 then upd2 c2 i j cg else c2) c) i b
        = cg := by
  induction js with
  | nil =>
      intro c b _ hcb
      rcases hcb with hcb | hcb
      · exact hcb
      · simp at hcb
  | cons j rest ih =>
      intro c b hb hcb
      simp only [List.foldl_cons]
      by_cases hj : j = b
      · subst hj
        refine ih _ j hb (Or.inl ?_)
        simp [hb, upd2]
      · refine ih _ b hb ?_
        rcases hcb with hcb | hcb
        · refine Or.inl ?_
          by_cases h : sf i j ≠ 0 <;> simp [h, upd2, Ne.symm hj, hcb]
        · simp only [List.mem_cons] at hcb
          rcases hcb with hcb | hcb
          · exact absurd hcb.symm hj
          · exact Or.inr hcb

/-- The cutoff-reset double loop never touches diagonal slots. -/
theorem resetOuter_diag (sf : ℕ → ℕ → ℤ) (cg : ℝ) (n : ℕ) (is : List ℕ) :
    ∀ (c : ℕ → ℕ → ℝ) (a : ℕ),
      (is.foldl (fun c i =>
        (List.range' (i + 1) (n - i)).foldl
          (fun c2 j => if sf i j ≠ 0 then upd2 c2 i j cg else c2) c) c) a a
        = c a a := by
  induction is with
  | nil => intro c a; rfl
  | cons i rest ih =>
      intro c a
      simp only [List.foldl_cons]
      rw [ih]
      by_cases hia : a = i
      · subst hia
        refine resetRow_not_mem sf cg a _ c a ?_
        intro hmem
        rw [List.mem_range'_1] at hmem
        omega
      · exact resetRow_ne sf cg i _ c a a hia

/-- The cutoff-reset double loop never touches unset slots. -/
theorem resetOuter_unset (sf : ℕ → ℕ → ℤ) (cg : ℝ) (n : ℕ) (is : List ℕ) :
    ∀ (c : ℕ → ℕ → ℝ) (a b : ℕ), sf a b = 0 →
      (is.foldl (fun c i =>
        (List.range' (i + 1) (n - i)).foldl
          (fun c2 j => if sf i j ≠ 0 then upd2 c2 i j cg else c2) c) c) a b
        = c a b := by
  induction is with
  | nil => intro c a b _; rfl
  | cons i rest ih =>
      intro c a b hab
      simp only [List.foldl_cons]
      rw [ih _ a b hab]
      by_cases hia : a = i
      · subst hia
        exact resetRow_unset sf cg a _ c b hab
      · exact resetRow_ne sf cg i _ c a b hia

/-- The cutoff-reset double loop writes the global cutoff into every set
slot in its visited range. -/
theorem resetOuter_set (sf : ℕ → ℕ → ℤ) (cg : ℝ) (n : ℕ) (is : List ℕ) :
    ∀ (c : ℕ → ℕ → ℝ) (a b : ℕ), sf a b ≠ 0 → a + 1 ≤ b → b < a + 1 + (n - a) →
      (c a b = cg ∨ a ∈ is) →
      (is.foldl (fun c i =>
        (List.range' (i + 1) (n - i)).foldl
          (fun c2 j => if sf i j ≠ 0 then upd2 c2 i j cg else c2) c) c) a b
        = cg := by
  induction is with
  | nil =>
      intro c a b _ _ _ hd
      rcases hd with hd | hd
      · exact hd
      · simp at hd
  | cons i rest ih =>
      intro c a b hab hb1 hb2 hd
      simp only [List.foldl_cons]
      by_cases hia : a = i
      · subst hia
        refine ih _ a b hab hb1 hb2 (Or.inl ?_)
        refine resetRow_set sf cg a _ c b hab (Or.inr ?_)
        rw [List.mem_range'_1]
        omega
      · rcases hd with hd | hd
        · refine ih _ a b hab hb1 hb2 (Or.inl ?_)
          rw [resetRow_ne sf cg i _ c a b hia]
          exact hd
        · simp only [List.mem_cons] at hd
          rcases hd with hd | hd
          · exact absurd hd hia
          · refine ih _ a b hab hb1 hb2 (Or.inr hd)

/-- C10: re-running the settings command on an allocated style resets the
stored cutoff to the new global cutoff exactly for explicitly set pairs
with `i < j`; diagonal slots (set or not) and unset slots keep their
previous cutoffs, for both pair styles. -/
theorem C10_settings_frame (arg0 arg1 : ℝ) (n : ℕ) (sf : ℕ → ℕ → ℤ)
    (ct : ℕ → ℕ → ℝ) (i j : ℕ)
    (h1 : 1 ≤ i) (hij : i < j) (hjn : j ≤ n) (hset : sf i j ≠ 0) :
    (∃ res, PairCoulDebyeOMP.settings 2 arg0 arg1 true n sf ct = .ok res ∧
      res.2.2 i j = arg1 ∧ (∀ k, res.2.2 k k = ct k k) ∧
      (∀ a b, sf a b = 0 → res.2.2 a b = ct a b)) ∧
    (∃ res, PairCoulDielOMP.settings 1 arg1 true n sf ct = .ok res ∧
      res.2 i j = arg1 ∧ (∀ k, res.2 k k = ct k k) ∧
      (∀ a b, sf a b = 0 → res.2 a b = ct a b)) := by
  have hchar :
      PairCoulDebyeOMP.resetCuts n sf arg1 ct i j = arg1 ∧
      (∀ k, PairCoulDebyeOMP.resetCuts n sf arg1 ct k k = ct k k) ∧
      (∀ a b, sf a b = 0 → PairCoulDebyeOMP.resetCuts n sf arg1 ct a b = ct a b) := by
    refine ⟨?_, ?_, ?_⟩
    · refine resetOuter_set sf arg1 n _ ct i j hset (by omega) (by omega) (Or.inr ?_)
      rw [List.mem_range'_1]
      omega
    · intro k
      exact resetOuter_diag sf arg1 n _ ct k
    · intro a b hab
      exact resetOuter_unset sf arg1 n _ ct a b hab
  constructor
  · refine ⟨(arg0, arg1, PairCoulDebyeOMP.resetCuts n sf arg1 ct), ?_,
      hchar.1, hchar.2.1, hchar.2.2⟩
    rw [PairCoulDebyeOMP.settings, if_neg (by norm_num)]
    simp
  · refine ⟨(arg1, PairCoulDebyeOMP.resetCuts n sf arg1 ct), ?_,
      hchar.1, hchar.2.1, hchar.2.2⟩
    rw [PairCoulDielOMP.settings, if_neg (by norm_num)]
    simp

/-- Witness for C10 at a concrete two-type table with every pair set. -/
theorem C10_settings_frame_witness :
    (1:ℕ) ≤ 1 ∧ (1:ℕ) < 2 ∧ (2:ℕ) ≤ 2 ∧ (fun (_ _ : ℕ) => (1:ℤ)) 1 2 ≠ 0 ∧
    ((∃ res, PairCoulDebyeOMP.settings 2 7 9 true 2 (fun _ _ => 1) (fun _ _ => 3) = .ok res ∧
        res.2.2 1 2 = 9 ∧ (∀ k, res.2.2 k k = (fun (_ _ : ℕ) => (3:ℝ)) k k) ∧
        (∀ a b, (fun (_ _ : ℕ) => (1:ℤ)) a b = 0 → res.2.2 a b = (fun (_ _ : ℕ) => (3:ℝ)) a b)) ∧
      (∃ res, PairCoulDielOMP.settings 1 9 true 2 (fun _ _ => 1) (fun _ _ => 3) = .ok res ∧
        res.2 1 2 = 9 ∧ (∀ k, res.2 k k = (fun (_ _ : ℕ) => (3:ℝ)) k k) ∧
        (∀ a b, (fun (_ _ : ℕ) => (1:ℤ)) a b = 0 → res.2 a b = (fun (_ _ : ℕ) => (3:ℝ)) a b))) :=
  ⟨le_refl 1, by norm_num, le_refl 2, by decide,
   C10_settings_frame 7 9 2 (fun _ _ => 1) (fun _ _ => 3) 1 2
     (le_refl 1) (by norm_num) (le_refl 2) (by decide)⟩

/-- A successful `init_one` leaves the set flags untouched and succeeds
exactly on set pairs. -/
theorem init_one_ok_of_set (A : Atoms) (P : PairCoulDielOMP.Data) (i j : ℕ)
    (hset : P.setflag i j ≠ 0) :
    ∃ P2 c, PairCoulDielOMP.init_one A P i j = .ok (P2, c) ∧
      P2.setflag = P.setflag := by
  rw [PairCoulDielOMP.init_one, if_neg hset]
  exact ⟨_, _, rfl, rfl⟩

/-- A successful `init_one` establishes table symmetry at its own pair. -/
theorem init_one_ok_symmAt (A : Atoms) (P P2 : PairCoulDielOMP.Data) (i j : ℕ) (c : ℝ)
    (heq : PairCoulDielOMP.init_one A P i j = .ok (P2, c)) :
    PairCoulDielOMP.symmAt P2 i j := by
  by_cases hs : P.setflag i j = 0
  · rw [PairCoulDielOMP.init_one, if_pos hs] at heq
    simp at heq
  · rw [PairCoulDielOMP.init_one, if_neg hs] at heq
    simp only [Except.ok.injEq, Prod.mk.injEq] at heq
    obtain ⟨hP2, -⟩ := heq
    subst hP2
    by_cases hij : i = j <;>
      simp [PairCoulDielOMP.symmAt, upd2, hij]

/-- A successful `init_one` on a different unordered pair leaves the four
tables unchanged at the slots of the pair of interest. -/
theorem init_one_preserves_symmAt (A : Atoms) (P P2 : PairCoulDielOMP.Data)
    (a b i j : ℕ) (c : ℝ)
    (heq : PairCoulDielOMP.init_one A P a b = .ok (P2, c))
    (h1 : ¬(a = i ∧ b = j)) (h2 : ¬(a = j ∧ b = i))
    (hsym : PairCoulDielOMP.symmAt P i j) :
    PairCoulDielOMP.symmAt P2 i j := by
  by_cases hs : P.setflag a b = 0
  · rw [PairCoulDielOMP.init_one, if_pos hs] at heq
    simp at heq
  · rw [PairCoulDielOMP.init_one, if_neg hs] at heq
    simp only [Except.ok.injEq, Prod.mk.injEq] at heq
    obtain ⟨hP2, -⟩ := heq
    subst hP2
    have hc1 : ¬(i = b ∧ j = a) := fun h => h2 ⟨h.2.symm, h.1.symm⟩
    have hc2 : ¬(j = b ∧ i = a) := fun h => h1 ⟨h.2.symm, h.1.symm⟩
    have hc3 : ¬(i = a ∧ j = b) := fun h => h1 ⟨h.1.symm, h.2.symm⟩
    have hc4 : ¬(j = a ∧ i = b) := fun h => h2 ⟨h.1.symm, h.2.symm⟩
    simpa [PairCoulDielOMP.symmAt, upd2, hc1, hc2, hc3, hc4] using hsym

/-- Folding `init_one` over a list of set pairs succeeds. -/
theorem init_fold_ok (A : Atoms) :
    ∀ (L : List (ℕ × ℕ)) (P : PairCoulDielOMP.Data),
      (∀ p ∈ L, P.setflag p.1 p.2 ≠ 0) →
      ∃ P2, PairCoulDielOMP.init_fold A L P = .ok P2 := by
  intro L
  induction L with
  | nil => intro P _; exact ⟨P, rfl⟩
  | cons p rest ih =>
      intro P hset
      obtain ⟨P1, c, heq, hsf⟩ :=
        init_one_ok_of_set A P p.1 p.2 (hset p (List.mem_cons_self p rest))
      obtain ⟨P2, heq2⟩ := ih P1 (by
        intro q hq
        rw [hsf]
        exact hset q (List.mem_cons_of_mem p hq))
      exact ⟨P2, by rw [PairCoulDielOMP.init_fold, heq]; exact heq2⟩

/-- Once a pair appears in the initialization list (or symmetry already
holds there), the fold result is symmetric at that pair, provided every
processed pair is in canonical order. -/
theorem init_fold_symmAt (A : Atoms) (i j : ℕ) (hij : i < j) :
    ∀ (L : List (ℕ × ℕ)) (P P2 : PairCoulDielOMP.Data),
      PairCoulDielOMP.init_fold A L P = .ok P2 →
      (∀ p ∈ L, p.1 ≤ p.2) →
      (PairCoulDielOMP.symmAt P i j ∨ (i, j) ∈ L) →
      PairCoulDielOMP.symmAt P2 i j := by
  intro L
  induction L with
  | nil =>
      intro P P2 hfold _ hd
      simp only [PairCoulDielOMP.init_fold, Except.ok.injEq] at hfold
      subst hfold
      rcases hd with hd | hd
      · exact hd
      · simp at hd
  | cons p rest ih =>
      obtain ⟨pa, pb⟩ := p
      intro P P2 hfold hord hd
      rw [PairCoulDielOMP.init_fold] at hfold
      rcases heq : PairCoulDielOMP.init_one A P pa pb with e | P1c
      · rw [heq] at hfold
        simp at hfold
      · rw [heq] at hfold
        obtain ⟨P1, c⟩ := P1c
        have hord2 : ∀ q ∈ rest, q.1 ≤ q.2 := fun q hq =>
          hord q (List.mem_cons_of_mem _ hq)
        have hple : pa ≤ pb := hord (pa, pb) (List.mem_cons_self _ rest)
        by_cases hp : pa = i ∧ pb = j
        · obtain ⟨rfl, rfl⟩ := hp
          exact ih P1 P2 hfold hord2
            (Or.inl (init_one_ok_symmAt A P P1 pa pb c heq))
        · rcases hd with hd | hd
          · refine ih P1 P2 hfold hord2 (Or.inl ?_)
            refine init_one_preserves_symmAt A P P1 pa pb i j c heq hp ?_ hd
            intro h
            obtain ⟨h1, h2⟩ := h
            omega
          · simp only [List.mem_cons, Prod.mk.injEq] at hd
            rcases hd with hd | hd
            · exact absurd ⟨hd.1.symm, hd.2.symm⟩ hp
            · exact ih P1 P2 hfold hord2 (Or.inr hd)

/-- One dielectric loop body never writes the style tables, whatever value
the uninitialized `jtype` holds. -/
theorem diel_evalStep_fst (EV EF NP : Bool) (jt : ℕ) (A : Atoms) (i : ℕ)
    (w : PairCoulDielOMP.Data × EvalAcc) (jj : ℕ) :
    (PairCoulDielOMP.evalStep EV EF NP jt A i w jj).1 = w.1 := by
  simp only [PairCoulDielOMP.evalStep]
  split <;> rfl

/-- The dielectric eval loop never writes the style tables, whatever value
the uninitialized `jtype` holds. -/
theorem diel_eval_fst (EV EF NP : Bool) (jt : ℕ) (A : Atoms) :
    ∀ (nlist : List (ℕ × List ℕ)) (w : PairCoulDielOMP.Data × EvalAcc),
      (PairCoulDielOMP.eval EV EF NP jt A nlist w).1 = w.1 := by
  have hinner : ∀ (i : ℕ) (js : List ℕ) (w : PairCoulDielOMP.Data × EvalAcc),
      (js.foldl (PairCoulDielOMP.evalStep EV EF NP jt A i) w).1 = w.1 := by
    intro i js
    induction js with
    | nil => intro w; rfl
    | cons jj rest ih =>
        intro w
        rw [List.foldl_cons, ih, diel_evalStep_fst]
  intro nlist
  induction nlist with
  | nil => intro w; rfl
  | cons e rest ih =>
      intro w
      rw [PairCoulDielOMP.eval, List.foldl_cons]
      simp only [PairCoulDielOMP.evalAtom]
      have := ih (e.2.foldl (PairCoulDielOMP.evalStep EV EF NP jt A e.1) w)
      rw [PairCoulDielOMP.eval] at this
      rw [this, hinner]

/-- C9: once initialization has run over a list of canonical type pairs
covering every declared pair, the coefficient tables are symmetric at all
declared type pairs, and the eval loop never modifies the tables, so the
symmetry is preserved across every evaluation call. -/
theorem C9_table_symmetry (A : Atoms) (n : ℕ) (L : List (ℕ × ℕ))
    (P : PairCoulDielOMP.Data)
    (hord : ∀ p ∈ L, p.1 ≤ p.2)
    (hset : ∀ p ∈ L, P.setflag p.1 p.2 ≠ 0)
    (hcov : ∀ i j, 1 ≤ i → i < j → j ≤ n → (i, j) ∈ L) :
    (∃ P2, PairCoulDielOMP.init_fold A L P = .ok P2 ∧
      ∀ i j, 1 ≤ i → 1 ≤ j → i ≤ n → j ≤ n → PairCoulDielOMP.symmAt P2 i j) ∧
    (∀ (EV EF NP : Bool) (jt : ℕ) (A2 : Atoms) (nlist : List (ℕ × List ℕ))
       (w : PairCoulDielOMP.Data × EvalAcc),
      (PairCoulDielOMP.eval EV EF NP jt A2 nlist w).1 = w.1) := by
  constructor
  · obtain ⟨P2, hfold⟩ := init_fold_ok A L P hset
    refine ⟨P2, hfold, ?_⟩
    intro i j h1i h1j hin hjn
    rcases lt_trichotomy i j with hij | hij | hij
    · exact init_fold_symmAt A i j hij L P P2 hfold hord
        (Or.inr (hcov i j h1i hij hjn))
    · subst hij
      exact ⟨rfl, rfl, rfl, rfl⟩
    · have hs := init_fold_symmAt A j i hij L P P2 hfold hord
        (Or.inr (hcov j i h1j hij hin))
      exact ⟨hs.1.symm, hs.2.1.symm, hs.2.2.1.symm, hs.2.2.2.symm⟩
  · intro EV EF NP jt A2 nlist w
    exact diel_eval_fst EV EF NP jt A2 nlist w

/-- Witness for C9 with two declared types and every canonical pair set. -/
theorem C9_table_symmetry_witness :
    (∀ p ∈ [((1:ℕ), (1:ℕ)), (1, 2), (2, 2)], p.1 ≤ p.2) ∧
    (∀ p ∈ [((1:ℕ), (1:ℕ)), (1, 2), (2, 2)], sampleDiel.setflag p.1 p.2 ≠ 0) ∧
    (∀ i j, 1 ≤ i → i < j → j ≤ 2 → (i, j) ∈ [((1:ℕ), (1:ℕ)), (1, 2), (2, 2)]) ∧
    ((∃ P2, PairCoulDielOMP.init_fold sampleAtoms [((1:ℕ), (1:ℕ)), (1, 2), (2, 2)] sampleDiel
        = .ok P2 ∧
        ∀ i j, 1 ≤ i → 1 ≤ j → i ≤ 2 → j ≤ 2 → PairCoulDielOMP.symmAt P2 i j) ∧
      (∀ (EV EF NP : Bool) (jt : ℕ) (A2 : Atoms) (nlist : List (ℕ × List ℕ))
         (w : PairCoulDielOMP.Data × EvalAcc),
        (PairCoulDielOMP.eval EV EF NP jt A2 nlist w).1 = w.1)) := by
  have hord : ∀ p ∈ [((1:ℕ), (1:ℕ)), (1, 2), (2, 2)], p.1 ≤ p.2 := by decide
  have hset : ∀ p ∈ [((1:ℕ), (1:ℕ)), (1, 2), (2, 2)],
      sampleDiel.setflag p.1 p.2 ≠ 0 := by
    intro p _
    simp [sampleDiel]
  have hcov : ∀ i j, 1 ≤ i → i < j → j ≤ 2 →
      (i, j) ∈ [((1:ℕ), (1:ℕ)), (1, 2), (2, 2)] := by
    intro i j h1 h2 h3
    have hij : i = 1 ∧ j = 2 := by omega
    obtain ⟨rfl, rfl⟩ := hij
    simp
  exact ⟨hord, hset, hcov,
    C9_table_symmetry sampleAtoms 2 [((1:ℕ), (1:ℕ)), (1, 2), (2, 2)] sampleDiel
      hord hset hcov⟩

/-- Freshly constructed dielectric style state, as a new object before any
restart data is read into it. -/
noncomputable def freshDiel : PairCoulDielOMP.Data :=
  { qqrd2e := 1, special_coul := fun _ => 1, eps_s := 0, a_eps := 0,
    b_eps := 0, cut_global := 0, offset_flag := 0, mix_flag := 0,
    setflag := fun _ _ => 0, sigmae := fun _ _ => 0, rme := fun _ _ => 0,
    offset := fun _ _ => 0, cut := fun _ _ => 0, cutsq := fun _ _ => 0 }

/-- Freshly constructed Debye style state. -/
noncomputable def freshDebye : PairCoulDebyeOMP.Data :=
  { qqrd2e := 1, special_coul := fun _ => 1, kappa := 0, cut_global := 0,
    offset_flag := 0, mix_flag := 0, setflag := fun _ _ => 0,
    cut := fun _ _ => 0, cutsq := fun _ _ => 0 }

/-- C3 fails on the code: writing the dielectric restart block for a fully
configured one-type state and reading it back into a fresh object loses the
per-pair data.  The reader never reads `setflag` back from the stream (it
tests the freshly zeroed table), so after read-back the pair is unset, the
`rme` entry is the fresh value instead of the written one, `eps_s` was
never written at all, and the four per-pair words written remain unconsumed
in the stream.  The Debye settings block, by contrast, round-trips its four
fields. -/
theorem C3_restart_roundtrip_bug :
    (PairCoulDielOMP.read_restart 1 freshDiel
        (PairCoulDielOMP.write_restart 1 sampleDiel)).map (fun r => r.1.setflag 1 1)
      = some 0 ∧
    sampleDiel.setflag 1 1 = 1 ∧
    (PairCoulDielOMP.read_restart 1 freshDiel
        (PairCoulDielOMP.write_restart 1 sampleDiel)).map (fun r => r.1.rme 1 1)
      = some 0 ∧
    sampleDiel.rme 1 1 = 2 ∧
    (PairCoulDielOMP.read_restart 1 freshDiel
        (PairCoulDielOMP.write_restart 1 sampleDiel)).map (fun r => r.1.eps_s)
      = some 0 ∧
    sampleDiel.eps_s = 80 ∧
    (PairCoulDielOMP.read_restart 1 freshDiel
        (PairCoulDielOMP.write_restart 1 sampleDiel)).map (fun r => r.2.length)
      = some 4 ∧
    (PairCoulDebyeOMP.read_restart_settings freshDebye
        (PairCoulDebyeOMP.write_restart_settings sampleDebye)).map
        (fun r => (r.1.cut_global, r.1.kappa, r.1.offset_flag, r.1.mix_flag))
      = some (sampleDebye.cut_global, sampleDebye.kappa, sampleDebye.offset_flag,
              sampleDebye.mix_flag) := by
  refine ⟨?_, rfl, ?_, rfl, ?_, rfl, ?_, rfl⟩ <;>
    simp [PairCoulDielOMP.read_restart, PairCoulDielOMP.write_restart,
      PairCoulDielOMP.write_restart_settings, PairCoulDielOMP.read_restart_settings,
      PairCoulDielOMP.readPairLoop, PairCoulDielOMP.allocate, PairCoulDielOMP.pairList,
      sampleDiel, freshDiel, List.range']
